import Mathlib

/-!
Verification of the exported-function lister (`main.go`).

The program walks the declarations of parsed Go files, decides which
function/method declarations are exported, and prints either the bare name
(non-verbose) or a reconstructed signature (verbose).  The embedding below
mirrors the functions `exported`, `formatType`, `formatFields`,
`formatFuncParams`, `formatFuncResults`, `formatFuncDecl` and
`printFuncsInFile` of `main.go`.

Modelling conventions:
* Go `panic` (the fatal abort on strange receivers and unsupported type
  shapes, and the runtime index-out-of-range panic of `isUpper0` on a
  too-short string) is modelled by `Option`: `none` means the run aborts.
* A nil `*ast.FieldList` / nil `ast.Expr` is modelled by `Option`.
* `ast.Expr` is modelled by the inductive `Expr`, with one constructor per
  case of the type switch in `formatType`; every expression shape not
  enumerated there (the `default` case of the switch) is collapsed into the
  single constructor `Expr.unsupported`.
* Go `unicode.IsUpper` (the Unicode case table) is modelled by
  `unicodeIsUpper`; the development only ever evaluates it on ASCII, where
  it agrees with the real table.
* `fmt.Println` is modelled by appending the printed string to the output
  sequence, so `printFuncsInFile` returns the list of printed lines.
-/

namespace GoListFunc

/-- Model of Go's `unicode.IsUpper` rune classifier.  Concrete inputs in
this development are ASCII, where `Char.isUpper` agrees with the Unicode
case table. -/
def unicodeIsUpper (c : Char) : Bool :=
  c.isUpper

mutual

/-- Model of `ast.Expr`, one constructor per case of the type switch in
`formatType` (`main.go:99-125`).  `unsupported` stands for every shape
hitting the `default` branch. -/
inductive Expr where
  | ident : String → Expr
  | selector : Expr → String → Expr
  | star : Expr → Expr
  | array : Option Expr → Expr → Expr
  | ellipsis : Expr → Expr
  | funcType : List Field → Option (List Field) → Expr
  | mapType : Expr → Expr → Expr
  | chanType : Expr
  | basicLit : String → Expr
  | unsupported : Expr

/-- Model of `ast.Field`: a group of names sharing one type expression.
The type is optional because `formatType` accepts a nil expression. -/
inductive Field where
  | mk : List String → Option Expr → Field

end

/-- Names of a field (`field.Names`). -/
def Field.names : Field → List String
  | .mk ns _ => ns

/-- Type of a field (`field.Type`). -/
def Field.type : Field → Option Expr
  | .mk _ t => t

/-- Model of `ast.FuncDecl`: receiver field-list (`decl.Recv`, nil or a
list of fields), name (`decl.Name.Name`), parameters (`decl.Type.Params`)
and results (`decl.Type.Results`, possibly nil). -/
structure FuncDecl where
  recv : Option (List Field)
  name : String
  params : List Field
  results : Option (List Field)

/-- A top-level declaration: the type switch in `printFuncsInFile` only
handles `*ast.FuncDecl` and silently skips everything else. -/
inductive Decl where
  | funcDecl : FuncDecl → Decl
  | other : Decl

/-- A parsed file: its top-level declarations in source order. -/
structure File where
  decls : List Decl

/-- The inner name loop of `formatFields` (`main.go:130-136`): each name is
followed by a comma when it is not the last, then by a space. -/
def formatNames : List String → String
  | [] => ""
  | [n] => n ++ " "
  | n :: m :: rest => n ++ ", " ++ formatNames (m :: rest)

mutual

/-- Model of `formatType` (`main.go:99-125`).  `none` input is the `case
nil` branch; `none` output is a panic (`ChanType` and the `default`
branch). -/
def formatType : Option Expr → Option String
  | none => some ""
  | some (Expr.ident name) => some name
  | some (Expr.selector x sel) =>
      (formatType (some x)).map (fun sx => sx ++ "." ++ sel)
  | some (Expr.star x) =>
      (formatType (some x)).map (fun sx => "*" ++ sx)
  | some (Expr.array len elt) =>
      (formatType len).bind (fun sl =>
        (formatType (some elt)).map (fun se => "[" ++ sl ++ "]" ++ se))
  | some (Expr.ellipsis elt) => formatType (some elt)
  | some (Expr.funcType params results) =>
      (formatFields params).bind (fun sp =>
        (formatFuncResults results).map (fun sr =>
          "func(" ++ sp ++ ")" ++ sr))
  | some (Expr.mapType k v) =>
      (formatType (some k)).bind (fun sk =>
        (formatType (some v)).map (fun sv => "map[" ++ sk ++ "]" ++ sv))
  | some Expr.chanType => none
  | some (Expr.basicLit v) => some v
  | some Expr.unsupported => none

/-- Model of `formatFields` (`main.go:127-143`): each field renders its
names then its type, and `", "` is appended after every field but the
last. -/
def formatFields : List Field → Option String
  | [] => some ""
  | f :: rest =>
      (formatOneField f).bind (fun sf =>
        (formatFields rest).map (fun sr =>
          sf ++ (if rest.isEmpty then "" else ", ") ++ sr))

/-- One iteration of the outer loop of `formatFields`: the comma-joined
names followed by the rendered type. -/
def formatOneField : Field → Option String
  | Field.mk names ty =>
      (formatType ty).map (fun st => formatNames names ++ st)

/-- Model of `formatFuncResults` (`main.go:149-162`): empty for a nil
result list, otherwise a leading space and parentheses exactly when the
list has more than one field. -/
def formatFuncResults : Option (List Field) → Option String
  | none => some ""
  | some fields =>
      (formatFields fields).map (fun sf =>
        " " ++ (if fields.length > 1 then "(" else "") ++ sf ++
          (if fields.length > 1 then ")" else ""))

end

/-- Model of `formatFuncParams` (`main.go:145-147`), a synonym for
`formatFields`. -/
def formatFuncParams (fields : List Field) : Option String :=
  formatFields fields

/-- Model of the local closure `isUpper0` of `exported` (`main.go:83-88`):
when the string starts with one `*`, classify the rune at index 1 (the head
of the tail), otherwise the rune at index 0; indexing out of range is a
runtime panic, hence `none`. -/
def isUpper0 (s : String) : Option Bool :=
  if s.data.head? = some '*' then s.data.tail.head?.map unicodeIsUpper
  else s.data.head?.map unicodeIsUpper

/-- Model of `exported` (`main.go:82-97`).  A receiver list without exactly
one field panics; the Go `&&` short-circuits, so the method name is only
classified when the receiver type classified as upper. -/
def exported (decl : FuncDecl) : Option Bool :=
  match decl.recv with
  | none => isUpper0 decl.name
  | some [field] =>
      (formatType field.type).bind (fun rt =>
        (isUpper0 rt).bind (fun b1 =>
          if b1 then isUpper0 decl.name else some false))
  | some _ => none

/-- Model of `formatFuncDecl` (`main.go:164-182`).  A receiver list without
exactly one field panics; a receiver field with no names renders the whole
declaration as the empty string; a receiver field with several names
panics. -/
def formatFuncDecl (decl : FuncDecl) : Option String :=
  match decl.recv with
  | none =>
      (formatFuncParams decl.params).bind (fun sp =>
        (formatFuncResults decl.results).map (fun sr =>
          "func " ++ decl.name ++ "(" ++ sp ++ ")" ++ sr))
  | some [Field.mk [] _] => some ""
  | some [Field.mk [recvName] ty] =>
      (formatType ty).bind (fun st =>
        (formatFuncParams decl.params).bind (fun sp =>
          (formatFuncResults decl.results).map (fun sr =>
            "func " ++ "(" ++ recvName ++ " " ++ st ++ ") " ++ decl.name ++
              "(" ++ sp ++ ")" ++ sr)))
  | some _ => none

/-- The declaration loop of `printFuncsInFile` (`main.go:66-80`): exported
function declarations contribute one printed line each (the rendered
signature in verbose mode, the bare name otherwise), other declarations
are skipped. -/
def printFuncsInDecls (decls : List Decl) (verbose : Bool) :
    Option (List String) :=
  match decls with
  | [] => some []
  | Decl.other :: rest => printFuncsInDecls rest verbose
  | Decl.funcDecl decl :: rest =>
      (exported decl).bind (fun e =>
        if e then
          (if verbose then formatFuncDecl decl else some decl.name).bind
            (fun line =>
              (printFuncsInDecls rest verbose).map (fun out => line :: out))
        else printFuncsInDecls rest verbose)

/-- Model of `printFuncsInFile` (`main.go:66-80`): the sequence of lines
printed for one file, or `none` when the run aborts. -/
def printFuncsInFile (file : File) (verbose : Bool) : Option (List String) :=
  printFuncsInDecls file.decls verbose

/-- The spec's strip rule: remove one leading `*` if present. -/
def stripStar (s : String) : String :=
  if s.data.head? = some '*' then String.mk s.data.tail else s

/-- Join a list of strings with a comma and a space, as the spec describes
field joining. -/
def joinComma : List String → String
  | [] => ""
  | [x] => x
  | x :: y :: rest => x ++ ", " ++ joinComma (y :: rest)

/-- Spec-side text of one field: the comma-joined names, a space when any
name is present, then the rendered type text. -/
def fieldNamesText (names : List String) : String :=
  if names.isEmpty then "" else joinComma names ++ " "

/-- Render the signatures of a list of declarations in order, aborting when
any rendering aborts (spec-side view used to state ordering claims). -/
def renderAll : List FuncDecl → Option (List String)
  | [] => some []
  | fd :: rest =>
      (formatFuncDecl fd).bind (fun line =>
        (renderAll rest).map (fun out => line :: out))

/-- The exported function declarations of a declaration list, in source
order (spec-side view used to state ordering claims). -/
def exportedDecls (decls : List Decl) : List FuncDecl :=
  decls.filterMap (fun d =>
    match d with
    | Decl.funcDecl fd => if exported fd = some true then some fd else none
    | Decl.other => none)

/-! ## Concrete example declarations -/

/-- Example: func F() (n, m int), one result field with two names. -/
def exResultNM : FuncDecl :=
  { recv := none, name := "F", params := [],
    results := some [Field.mk ["n", "m"] (some (Expr.ident "int"))] }

/-- Example: a declaration with an empty receiver field-list. -/
def exRecvZero : FuncDecl :=
  { recv := some [], name := "Foo", params := [], results := none }

/-- Example: a declaration with a two-field receiver list. -/
def exRecvTwo : FuncDecl :=
  { recv := some [Field.mk ["a"] none, Field.mk ["b"] none], name := "Foo",
    params := [], results := none }

/-- Example: func (T) Foo(), a method whose receiver field has no name. -/
def exUnnamedRecv : FuncDecl :=
  { recv := some [Field.mk [] (some (Expr.ident "T"))], name := "Foo",
    params := [], results := none }

/-- Example: func Join(), an exported free function. -/
def exFreeJoin : FuncDecl :=
  { recv := none, name := "Join", params := [], results := none }

/-- Example: func split(), an unexported free function. -/
def exFreeSplitLower : FuncDecl :=
  { recv := none, name := "split", params := [], results := none }

/-- Example: func (r *Reader) Read(), a method on a pointer receiver. -/
def exMethodRead : FuncDecl :=
  { recv := some [Field.mk ["r"] (some (Expr.star (Expr.ident "Reader")))],
    name := "Read", params := [], results := none }

/-! ## Helper lemmas -/

/-- The case test of `isUpper0` is exactly "first rune of the text after
stripping one leading star". -/
theorem isUpper0_eq_stripStar_head (s : String) :
    isUpper0 s = ((stripStar s).data.head?).map unicodeIsUpper := by
  unfold isUpper0 stripStar
  by_cases h : s.data.head? = some '*' <;> simp [h]

/-- The name loop of `formatFields` produces the comma-space join of the
names, with a trailing space when any name is present. -/
theorem formatNames_eq_fieldNamesText (names : List String) :
    formatNames names = fieldNamesText names := by
  induction names with
  | nil => simp [formatNames, fieldNamesText]
  | cons n rest ih =>
      cases rest with
      | nil => simp [formatNames, fieldNamesText, joinComma]
      | cons m t =>
          simp [formatNames, fieldNamesText, joinComma, ih,
            String.append_assoc]

/-- Unfolding lemma for `joinComma` in the shape of the `formatFields`
loop. -/
theorem joinComma_cons (x : String) (l : List String) :
    joinComma (x :: l) = x ++ (if l.isEmpty then "" else ", ") ++
      joinComma l := by
  cases l with
  | nil => simp [joinComma]
  | cons y t => simp [joinComma, String.append_assoc]

/-! ## Claims -/

/-- C3: RenderType composes recursively over the supported shapes: a slice
of pointer to any identifier X renders as "[]*X", a pointer to a map from
string to slice of int renders as "*map[string][]int", and the identifier
SpecialCase qualified by package unicode renders as
"unicode.SpecialCase". -/
theorem formatType_composition :
    (∀ X : String,
      formatType (some (Expr.array none (Expr.star (Expr.ident X)))) =
        some ("[]*" ++ X)) ∧
    formatType (some (Expr.star (Expr.mapType (Expr.ident "string")
      (Expr.array none (Expr.ident "int"))))) = some "*map[string][]int" ∧
    formatType (some (Expr.selector (Expr.ident "unicode") "SpecialCase")) =
      some "unicode.SpecialCase" := by
  refine ⟨fun X => ?_, ?_, ?_⟩ <;> simp [formatType, ← String.append_assoc]

/-- C6: RenderType drops the ellipsis marker: a variadic type renders
exactly as its element type, so the parameter list of f(xs ...int) renders
as "xs int". -/
theorem formatType_ellipsis_dropped :
    (∀ T : Expr, formatType (some (Expr.ellipsis T)) = formatType (some T)) ∧
    formatFields [Field.mk ["xs"] (some (Expr.ellipsis (Expr.ident "int")))] =
      some "xs int" := by
  constructor
  · intro T
    simp [formatType]
  · simp [formatFields, formatOneField, formatType, formatNames]

/-- C7: a channel type expression, or any shape outside the supported set
(the default branch of the type switch, modelled by Expr.unsupported),
makes RenderType abort fatally: no string is returned, and the abort
propagates so the whole listing run produces no output. -/
theorem formatType_chan_unsupported_fatal :
    formatType (some Expr.chanType) = none ∧
    formatType (some Expr.unsupported) = none ∧
    formatType (some (Expr.star Expr.chanType)) = none ∧
    formatType (some (Expr.array none Expr.unsupported)) = none ∧
    printFuncsInDecls [Decl.funcDecl
      { recv := none, name := "F",
        params := [Field.mk ["c"] (some Expr.chanType)], results := none }]
      true = none := by
  refine ⟨by simp [formatType], by simp [formatType], by simp [formatType],
    by simp [formatType], ?_⟩
  simp [printFuncsInDecls, exported, isUpper0, unicodeIsUpper,
    formatFuncDecl, formatFuncParams, formatFields, formatOneField,
    formatType]

/-- C5: the rendered result suffix is empty when the result field-list is
absent; otherwise it begins with one space and the rendered fields are
wrapped in parentheses exactly when the list has more than one field. -/
theorem formatFuncResults_spec :
    formatFuncResults none = some "" ∧
    (∀ (fields : List Field) (s : String), formatFields fields = some s →
      formatFuncResults (some fields) =
        some (" " ++ if fields.length > 1 then "(" ++ s ++ ")" else s)) := by
  constructor
  · simp [formatFuncResults]
  · intro fields s h
    by_cases hlen : fields.length > 1 <;>
      simp [formatFuncResults, h, hlen, ← String.append_assoc]

/-- Witness for C5 at a concrete two-field and one-field result list. -/
theorem formatFuncResults_spec_witness :
    formatFuncResults (some [Field.mk ["n"] (some (Expr.ident "int")),
        Field.mk ["err"] (some (Expr.ident "error"))]) =
      some " (n int, err error)" ∧
    formatFuncResults (some [Field.mk [] (some (Expr.ident "string"))]) =
      some " string" := by
  constructor
  · have h := formatFuncResults_spec.2
      [Field.mk ["n"] (some (Expr.ident "int")),
       Field.mk ["err"] (some (Expr.ident "error"))] "n int, err error"
      (by simp [formatFields, formatOneField, formatType, formatNames])
    simpa using h
  · have h := formatFuncResults_spec.2
      [Field.mk [] (some (Expr.ident "string"))] "string"
      (by simp [formatFields, formatOneField, formatType, formatNames])
    simpa using h

/-- C10: a result field-list of exactly one field renders with no
parentheses even when that field has two or more names, so
func F() (n, m int) renders as "func F() n, m int". -/
theorem single_result_field_no_parens :
    (∀ (names : List String) (ty : Option Expr), 2 ≤ names.length →
      formatFuncResults (some [Field.mk names ty]) =
        (formatType ty).map (fun st => " " ++ (formatNames names ++ st))) ∧
    formatFuncDecl exResultNM = some "func F() n, m int" := by
  constructor
  · intro names ty _
    cases h : formatType ty <;>
      simp [formatFuncResults, formatFields, formatOneField, h,
        ← String.append_assoc]
  · simp [exResultNM, formatFuncDecl, formatFuncParams, formatFields,
      formatOneField, formatFuncResults, formatType, formatNames,
      ← String.append_assoc]

/-- Witness for C10 at the two-name single result field (n, m int). -/
theorem single_result_field_no_parens_witness :
    2 ≤ (["n", "m"] : List String).length ∧
    formatFuncResults (some [Field.mk ["n", "m"]
        (some (Expr.ident "int"))]) = some " n, m int" := by
  refine ⟨by decide, ?_⟩
  have h := single_result_field_no_parens.1 ["n", "m"]
    (some (Expr.ident "int")) (by decide)
  simpa [formatType, formatNames, ← String.append_assoc] using h

/-- C8: a receiver field-list present with a number of fields other than
one makes both the classifier and the renderer abort fatally. -/
theorem strange_receiver_fatal :
    ∀ (decl : FuncDecl) (l : List Field), decl.recv = some l →
      l.length ≠ 1 → exported decl = none ∧ formatFuncDecl decl = none := by
  intro decl l hrecv hlen
  obtain ⟨recv, nm, ps, rs⟩ := decl
  dsimp only at hrecv
  subst hrecv
  match l, hlen with
  | [], _ => exact ⟨rfl, rfl⟩
  | [f], h => exact absurd rfl h
  | f :: g :: t, _ =>
    refine ⟨rfl, ?_⟩
    unfold formatFuncDecl
    split <;> simp_all

/-- Witness for C8 at empty and two-field receiver lists. -/
theorem strange_receiver_fatal_witness :
    (exported exRecvZero = none ∧ formatFuncDecl exRecvZero = none) ∧
    (exported exRecvTwo = none ∧ formatFuncDecl exRecvTwo = none) :=
  ⟨strange_receiver_fatal exRecvZero [] rfl (by decide),
   strange_receiver_fatal exRecvTwo
     [Field.mk ["a"] none, Field.mk ["b"] none] rfl (by decide)⟩

/-- C4: RenderFields joins fields with a comma and a space, in declaration
order; within a field the names are comma-joined with no trailing comma,
and when any name is present they are followed by one space and then the
rendered type text, rendered once per field; the parameter list
(a, b string) renders exactly as "a, b string". -/
theorem formatFields_join :
    (∀ (fields : List Field) (s : String), formatFields fields = some s →
      s = joinComma (fields.map (fun f =>
        fieldNamesText f.names ++ (formatType f.type).getD ""))) ∧
    (∀ names : List String, names ≠ [] →
      formatNames names = joinComma names ++ " ") ∧
    formatFields [Field.mk ["a", "b"] (some (Expr.ident "string"))] =
      some "a, b string" := by
  refine ⟨?_, ?_, ?_⟩
  · intro fields
    induction fields with
    | nil =>
        intro s h
        simp [formatFields] at h
        simp [← h, joinComma]
    | cons f rest ih =>
        intro s h
        obtain ⟨names, ty⟩ := f
        cases hst : formatType ty with
        | none => simp [formatFields, formatOneField, hst] at h
        | some st =>
            cases hsr : formatFields rest with
            | none => simp [formatFields, formatOneField, hst, hsr] at h
            | some sr =>
                simp only [formatFields, formatOneField, hst, hsr,
                  Option.map_some', Option.some_bind,
                  Option.some.injEq] at h
                rw [List.map_cons, joinComma_cons, ← ih sr hsr, ← h]
                cases rest with
                | nil =>
                    simp [Field.names, Field.type, hst,
                      formatNames_eq_fieldNamesText]
                | cons g t =>
                    simp [Field.names, Field.type, hst,
                      formatNames_eq_fieldNamesText, String.append_assoc]
  · intro names h
    cases names with
    | nil => exact absurd rfl h
    | cons n rest =>
        simp [formatNames_eq_fieldNamesText, fieldNamesText]
  · simp [formatFields, formatOneField, formatType, formatNames]

/-- Witness for C4 at the field-list of (a, b string). -/
theorem formatFields_join_witness :
    ("a, b string" : String) =
      joinComma ([Field.mk ["a", "b"] (some (Expr.ident "string"))].map
        (fun f => fieldNamesText f.names ++ (formatType f.type).getD "")) ∧
    formatNames ["a", "b"] = joinComma ["a", "b"] ++ " " := by
  constructor
  · exact formatFields_join.1 _ "a, b string"
      (by simp [formatFields, formatOneField, formatType, formatNames])
  · exact formatFields_join.2.1 ["a", "b"] (by decide)

/-- C1 (counterexample): the unnamed-receiver method func (T) Foo() is
exported and renders to the empty string, but in verbose mode the program
still prints that empty string as its own line, so the output sequence for
a file holding only this declaration is [""] — one empty-line entry — and
not the empty sequence the claim demands. -/
theorem unnamedRecv_entry_emitted :
    formatFuncDecl exUnnamedRecv = some "" ∧
    printFuncsInDecls [Decl.funcDecl exUnnamedRecv] true = some [""] ∧
    printFuncsInDecls [Decl.funcDecl exUnnamedRecv] true ≠ some [] := by
  have h1 : formatType (some (Expr.ident "T")) = some "T" := by
    simp [formatType]
  have hexp : exported exUnnamedRecv = some true := by
    simp only [exported, exUnnamedRecv, Field.type, h1, Option.some_bind]
    decide
  simp only [exUnnamedRecv] at hexp
  refine ⟨rfl, ?_, ?_⟩
  · simp [printFuncsInDecls, exUnnamedRecv, hexp, formatFuncDecl]
  · simp [printFuncsInDecls, exUnnamedRecv, hexp, formatFuncDecl]

/-- C1 (amended): a declaration whose single receiver field has an empty
names list renders to the empty string, and in verbose mode an exported
such declaration still contributes one empty-line entry to the output
sequence, in its source position — it is not skipped. -/
theorem unnamedRecv_renders_empty :
    (∀ (decl : FuncDecl) (ty : Option Expr),
      decl.recv = some [Field.mk [] ty] → formatFuncDecl decl = some "") ∧
    (∀ (decl : FuncDecl) (ty : Option Expr) (rest : List Decl),
      decl.recv = some [Field.mk [] ty] → exported decl = some true →
      printFuncsInDecls (Decl.funcDecl decl :: rest) true =
        (printFuncsInDecls rest true).map (fun out => "" :: out)) := by
  have hrender : ∀ (decl : FuncDecl) (ty : Option Expr),
      decl.recv = some [Field.mk [] ty] → formatFuncDecl decl = some "" := by
    intro decl ty h
    obtain ⟨recv, nm, ps, rs⟩ := decl
    dsimp only at h
    subst h
    rfl
  refine ⟨hrender, ?_⟩
  intro decl ty rest h hexp
  simp [printFuncsInDecls, hexp, hrender decl ty h]

/-- Witness for the amended C1 at func (T) Foo() in a one-declaration
file. -/
theorem unnamedRecv_renders_empty_witness :
    printFuncsInDecls [Decl.funcDecl exUnnamedRecv] true =
      (printFuncsInDecls [] true).map (fun out => "" :: out) := by
  have h1 : formatType (some (Expr.ident "T")) = some "T" := by
    simp [formatType]
  have hexp : exported exUnnamedRecv = some true := by
    simp only [exported, exUnnamedRecv, Field.type, h1, Option.some_bind]
    decide
  exact unnamedRecv_renders_empty.2 exUnnamedRecv (some (Expr.ident "T"))
    [] rfl hexp

/-- C2: for a declaration with no receiver, the classifier returns true
exactly when the first rune of the function name is uppercase; for a
declaration with a one-field receiver it returns true exactly when both
the first rune of the rendered receiver type text after stripping one
leading star and the first rune of the method name are uppercase.  The
first conjunct states the shared rule: the case test always classifies
the first rune of the text after stripping one leading star. -/
theorem exported_first_rune_rule :
    (∀ s : String,
      isUpper0 s = ((stripStar s).data.head?).map unicodeIsUpper) ∧
    (∀ decl : FuncDecl, decl.recv = none →
      decl.name.data.head? ≠ some '*' →
      exported decl = (decl.name.data.head?).map unicodeIsUpper) ∧
    (∀ (decl : FuncDecl) (field : Field) (rt : String),
      decl.recv = some [field] → formatType field.type = some rt →
      decl.name.data.head? ≠ some '*' →
      (exported decl = some true ↔
        ((stripStar rt).data.head?).map unicodeIsUpper = some true ∧
        (decl.name.data.head?).map unicodeIsUpper = some true)) := by
  refine ⟨isUpper0_eq_stripStar_head, ?_, ?_⟩
  · intro decl hrecv hname
    obtain ⟨recv, nm, ps, rs⟩ := decl
    dsimp only at hrecv hname ⊢
    subst hrecv
    simp [exported, isUpper0, hname]
  · intro decl field rt hrecv hft hname
    obtain ⟨recv, nm, ps, rs⟩ := decl
    dsimp only at hrecv hname hft ⊢
    subst hrecv
    have hb : isUpper0 nm = (nm.data.head?).map unicodeIsUpper := by
      unfold isUpper0
      rw [if_neg hname]
    simp only [exported, hft, Option.some_bind]
    rw [isUpper0_eq_stripStar_head]
    cases hA : (stripStar rt).data.head? with
    | none => simp
    | some c =>
        cases hc : unicodeIsUpper c <;> simp [hb, hc]

/-- Witness for C2 at func Join() and func (r *Reader) Read(). -/
theorem exported_first_rune_rule_witness :
    exported exFreeJoin = (exFreeJoin.name.data.head?).map unicodeIsUpper ∧
    (exported exMethodRead = some true ↔
      ((stripStar "*Reader").data.head?).map unicodeIsUpper = some true ∧
      (exMethodRead.name.data.head?).map unicodeIsUpper = some true) := by
  constructor
  · exact exported_first_rune_rule.2.1 exFreeJoin rfl (by decide)
  · exact exported_first_rune_rule.2.2 exMethodRead
      (Field.mk ["r"] (some (Expr.star (Expr.ident "Reader")))) "*Reader"
      rfl (by simp [formatType, Field.type]) (by decide)

/-- C9: a completed run prints exactly the exported function declarations
of the file, in source order, with no reordering or deduplication: in
non-verbose mode the printed entry is the bare declaration name (no
receiver prefix), in verbose mode the entries are exactly the rendered
signatures of those declarations in order. -/
theorem output_order_exactness :
    ∀ (decls : List Decl) (out : List String),
      (printFuncsInDecls decls false = some out →
        out = (exportedDecls decls).map FuncDecl.name) ∧
      (printFuncsInDecls decls true = some out →
        renderAll (exportedDecls decls) = some out) := by
  intro decls
  induction decls with
  | nil =>
      intro out
      constructor <;> intro h <;>
        simp only [printFuncsInDecls, Option.some.injEq] at h <;>
        subst h <;> rfl
  | cons d rest ih =>
      intro out
      cases d with
      | other =>
          have hskip : exportedDecls (Decl.other :: rest) =
              exportedDecls rest := by
            simp [exportedDecls]
          have hrun : ∀ v, printFuncsInDecls (Decl.other :: rest) v =
              printFuncsInDecls rest v := by
            intro v
            rfl
          refine ⟨fun h => ?_, fun h => ?_⟩
          · rw [hskip]
            exact (ih out).1 (by rw [← hrun false]; exact h)
          · rw [hskip]
            exact (ih out).2 (by rw [← hrun true]; exact h)
      | funcDecl fd =>
          cases hexp : exported fd with
          | none =>
              refine ⟨fun h => ?_, fun h => ?_⟩ <;>
                simp [printFuncsInDecls, hexp] at h
          | some b =>
              cases b with
              | false =>
                  have hskip : exportedDecls (Decl.funcDecl fd :: rest) =
                      exportedDecls rest := by
                    simp [exportedDecls, hexp]
                  refine ⟨fun h => ?_, fun h => ?_⟩
                  · rw [hskip]
                    exact (ih out).1
                      (by simpa [printFuncsInDecls, hexp] using h)
                  · rw [hskip]
                    exact (ih out).2
                      (by simpa [printFuncsInDecls, hexp] using h)
              | true =>
                  have hcons : exportedDecls (Decl.funcDecl fd :: rest) =
                      fd :: exportedDecls rest := by
                    simp [exportedDecls, hexp]
                  refine ⟨fun h => ?_, fun h => ?_⟩
                  · rcases hr : printFuncsInDecls rest false with _ | out'
                    · simp [printFuncsInDecls, hexp, hr] at h
                    · have h' := (ih out').1 hr
                      simp [printFuncsInDecls, hexp, hr] at h
                      simp [hcons, ← h, h']
                  · rcases hf : formatFuncDecl fd with _ | line
                    · simp [printFuncsInDecls, hexp, hf] at h
                    · rcases hr : printFuncsInDecls rest true with _ | out'
                      · simp [printFuncsInDecls, hexp, hf, hr] at h
                      · have h' := (ih out').2 hr
                        simp [printFuncsInDecls, hexp, hf, hr] at h
                        rw [hcons]
                        simp [renderAll, hf, h', ← h]

/-- Witness for C9 at a file with one exported and one unexported free
function around a non-function declaration. -/
theorem output_order_exactness_witness :
    (["Join"] : List String) =
      (exportedDecls [Decl.funcDecl exFreeJoin, Decl.other,
        Decl.funcDecl exFreeSplitLower]).map FuncDecl.name :=
  (output_order_exactness
    [Decl.funcDecl exFreeJoin, Decl.other, Decl.funcDecl exFreeSplitLower]
    ["Join"]).1 (by decide)

end GoListFunc
